import Mathlib

/-!
# Yubikey OTP validation client: a shallow embedding of `yubikey.go`

A Go string is a sequence of bytes: `len`, slicing, `strings.Split`,
`strings.Trim`, the byte replacer behind `strings.NewReplacer` and map keys all
work on those bytes.  Text (a sequence of Unicode characters) reaches the
program UTF-8 encoded; `str` is that encoding.

A Go `error` is `Option Error`, `none` being `nil`.
-/

set_option autoImplicit false

namespace Yubikey

/-! ## Strings -/

/-- The bytes of a Go string, in order, each a value below 256; `len(s)` is
`s.length`. -/
abbrev GoString := List Nat

/-- UTF-8 encoding of one rune (`utf8.AppendRune`): what `string(r)` and
`string([]rune{r})` produce for a non-negative rune `r`. -/
def encodeRune (r : Nat) : GoString :=
  if r < 0x80 then [r]
  else if r < 0x800 then [0xC0 + r / 64, 0x80 + r % 64]
  else if 0x10FFFF < r ∨ (0xD800 ≤ r ∧ r ≤ 0xDFFF) then [0xEF, 0xBF, 0xBD]
  else if r < 0x10000 then [0xE0 + r / 4096, 0x80 + r / 64 % 64, 0x80 + r % 64]
  else [0xF0 + r / 262144, 0x80 + r / 4096 % 64, 0x80 + r / 64 % 64, 0x80 + r % 64]

/-- Conversion `string(rs)` of a rune slice to a string. -/
def runesToString (rs : List Nat) : GoString :=
  rs.flatMap encodeRune

/-- The Go string holding the text `s`: its characters, UTF-8 encoded.  The
number of characters of the text is `s.length`, the Go length is
`(str s).length`. -/
def str (s : String) : GoString :=
  runesToString (s.toList.map Char.toNat)

/-! ## Errors (lines 21-27) -/

/-- The five error values of the package. -/
inductive Error where
  | ErrInvalidLength
  | ErrInvalidOTP
  | ErrMismatchOTP
  | ErrMismatchNonce
  | ErrStatus
  deriving DecidableEq, Repr

/-! ## The layout table and the two patterns (lines 28-35) -/

/-- The arguments of `strings.NewReplacer` at lines 29-32, as (old, new) pairs
in argument order. -/
def dvorakToQwertyOldNew : List (Char × Char) :=
  [('j', 'c'), ('x', 'b'), ('e', 'd'), ('.', 'e'), ('u', 'f'), ('i', 'g'), ('d', 'h'), ('c', 'i'),
   ('h', 'j'), ('t', 'k'), ('n', 'l'), ('b', 'n'), ('p', 'r'), ('y', 't'), ('g', 'u'), ('k', 'v'),
   ('J', 'C'), ('X', 'B'), ('E', 'D'), ('.', 'E'), ('U', 'F'), ('I', 'G'), ('D', 'H'), ('C', 'I'),
   ('H', 'J'), ('T', 'K'), ('N', 'L'), ('B', 'N'), ('P', 'R'), ('Y', 'T'), ('G', 'U'), ('K', 'V')]

/-- The byte table that `strings.NewReplacer` builds when every old and new
string is a single byte: a byte is replaced by the new byte of the FIRST pair
whose old byte it is, and is kept when there is none. -/
def replaceByte (oldnew : List (Char × Char)) (b : Nat) : Nat :=
  match oldnew.find? (fun p => p.1.toNat == b) with
  | some p => p.2.toNat
  | none => b

/-- Method `Replace` of the byte replacer: every byte goes through the table. -/
def Replace (oldnew : List (Char × Char)) (s : GoString) : GoString :=
  s.map (replaceByte oldnew)

/-- `dvorakToQwerty.Replace(s)`. -/
def dvorakToQwerty (s : GoString) : GoString :=
  Replace dvorakToQwertyOldNew s

/-- The character class of `matchDvorak` (line 34). -/
def dvorakClass : GoString :=
  str "jxe.uidchtnbpygkJXEUIDCHTNBPYGK"

/-- The character class of `matchQwerty` (line 35). -/
def qwertyClass : GoString :=
  str "cbdefghijklnrtuvCBDEFGHIJKLNRTUV"

/-- `MatchString` for a pattern `^[cls]{lo,hi}$` whose class holds one-byte
(ASCII) characters only: the whole text is between `lo` and `hi` class
characters.  A byte of 0x80 or more belongs to a rune outside such a class, so
the text matches exactly when every byte is in the class and the number of
bytes is in range. -/
def matchClassRepeat (cls : GoString) (lo hi : Nat) (s : GoString) : Bool :=
  decide (lo ≤ s.length) && decide (s.length ≤ hi) && s.all (fun b => cls.contains b)

/-- `matchDvorak.MatchString(s)`. -/
def matchDvorak (s : GoString) : Bool :=
  matchClassRepeat dvorakClass 32 48 s

/-- `matchQwerty.MatchString(s)`. -/
def matchQwerty (s : GoString) : Bool :=
  matchClassRepeat qwertyClass 32 48 s

/-! ## `IsValidOTP` (lines 64-83) -/

/-- Lines 71-74: the value of the local `otp` when line 77 tests it. -/
def convertLayout (otp : GoString) : GoString :=
  if matchDvorak otp then dvorakToQwerty otp else otp

/-- `Client.IsValidOTP`. -/
def IsValidOTP (otp : GoString) : Option Error :=
  if otp.length < 32 ∨ otp.length > 48 then
    some Error.ErrInvalidLength
  else if !matchQwerty (convertLayout otp) then
    some Error.ErrInvalidOTP
  else
    none

/-! ## `GetIdentity` (lines 86-94) -/

/-- The slice expression `s[:hi]`; `none` is the run-time panic for a bound
outside `0 ≤ hi ≤ len(s)`. -/
def sliceTo (s : GoString) (hi : Int) : Option GoString :=
  if 0 ≤ hi ∧ hi ≤ (s.length : Int) then some (s.take hi.toNat) else none

/-- `Client.GetIdentity`; `none` would be a panic. -/
def GetIdentity (otp : GoString) : Option GoString :=
  if otp.length < 33 then
    some []
  else
    sliceTo otp ((otp.length : Int) - 32)

/-! ## `nonce` (lines 198-214) -/

/-- Lines 204-208: the rune stored for the draw `c`. -/
def nonceRune (c : Nat) : Nat :=
  if c < 10 then c + 48 else c + 87

/-- Lines 200-211: the rune slice after the loop.  `draws i` is what the call
`rand.Intn(35)` of iteration `i` returns, a value in `[0, 35)`; seeding the
generator from the clock (line 199) only selects which sequence that is. -/
def nonceRunes (draws : Nat → Fin 35) : List Nat :=
  (List.range 40).foldl (fun buf i => buf.set i (nonceRune (draws i).val)) (List.replicate 40 0)

/-- `Client.nonce`: the argument `otp` is not used by the body. -/
def nonce (_otp : GoString) (draws : Nat → Fin 35) : GoString :=
  runesToString (nonceRunes draws)

/-! ## Maps `map[string]string` -/

/-- A Go map from strings to strings, as its lookup function: `none` for an
absent key. -/
abbrev GoMap := GoString → Option GoString

/-- The empty map literal. -/
def GoMap.empty : GoMap :=
  fun _ => none

/-- Assignment `m[k] = v`. -/
def GoMap.set (m : GoMap) (k v : GoString) : GoMap :=
  fun k' => if k' = k then some v else m k'

/-- Index expression `m[k]`: the empty string for an absent key. -/
def GoMap.index (m : GoMap) (k : GoString) : GoString :=
  (m k).getD []

/-! ## The response parser (lines 170-180) -/

/-- `strings.Split(s, sep)` for a one-byte separator: the pieces between the
separators, one more than there are separators. -/
def Split (sep : Nat) : GoString → List GoString
  | [] => [[]]
  | b :: rest =>
    if b = sep then [] :: Split sep rest
    else
      match Split sep rest with
      | [] => [[b]]
      | piece :: pieces => (b :: piece) :: pieces

/-- `strings.SplitN(s, sep, 2)` for a one-byte separator: `[s]` when `s` has
no separator, else the text before the first separator and the text after
it. -/
def SplitN2 (sep : Nat) (s : GoString) : List GoString :=
  match s.dropWhile (fun b => b != sep) with
  | [] => [s]
  | _ :: after => [s.takeWhile (fun b => b != sep), after]

/-- `strings.Trim(s, cutset)` for an ASCII cutset: the leading and the trailing
bytes that are in the cutset are removed. -/
def Trim (s cutset : GoString) : GoString :=
  ((s.dropWhile (fun b => cutset.contains b)).reverse.dropWhile (fun b => cutset.contains b)).reverse

/-- Body of the loop at lines 175-180 for one section. -/
def parseSection (responseData : GoMap) (sect : GoString) : GoMap :=
  match SplitN2 ( '='.toNat) sect with
  | [key, value] => responseData.set key (Trim value (str "\n\r"))
  | _ => responseData

/-- Lines 171-180: the map `responseData` built from the response body. -/
def parseResponse (response : GoString) : GoMap :=
  (Split ( '\n'.toNat) response).foldl parseSection GoMap.empty

/-! ## The per-server handler `api` (lines 133-195) -/

/-- The client: the HTTP handle is the capability `http` passed to `api`. -/
structure Client where
  ClientID : GoString
  Servers : List GoString

/-- The URL built at lines 137-143. -/
def requestURL (client : Client) (server otp nonce : GoString) : GoString :=
  str "https://" ++ server ++ str "/wsapi/2.0/verify?id=" ++ client.ClientID ++ str "&otp=" ++ otp
    ++ str "&nonce=" ++ nonce ++ str "&sl=secure"

/-- Lines 170-189 for a body that was read: the value the handler goes on to
offer on the channel, `none` when it returns at line 185 without offering. -/
def apiOffer (server response : GoString) : Option GoMap :=
  let responseData := parseResponse response
  if responseData.index (str "status") = str "REPLAYED_REQUEST" then none
  else some (responseData.set (str "_server") server)

/-- `Client.api` up to the `select`: `http url` is the body read for a GET of
`url`, `none` when building the request, sending it or reading the body failed
(the returns at lines 147, 156 and 167). -/
def api (client : Client) (http : GoString → Option GoString) (server otp nonce : GoString) :
    Option GoMap :=
  match http (requestURL client server otp nonce) with
  | none => none
  | some response => apiOffer server response

/-! ## The race on the channel `done` and `Validate` (lines 97-130, 188-195) -/

/-- The unbuffered channel `done` as `Validate` sees it: whether `Validate` is
blocked in the receive of line 111, and the value it has received. -/
structure Chan where
  receiving : Bool
  received : Option GoMap

/-- What can happen during one call of `Validate`: the caller reaches the
receive of line 111, or the handler started for a server reaches the end of
`api`.  A schedule is any list of such events; the schedules of the program,
where line 107 starts one handler for each configured server, are among
them. -/
inductive Event where
  | receive
  | finish (server : GoString)

/-- The `select` of lines 190-194 on an unbuffered channel: the send goes
through when the receiver is waiting, and is dropped otherwise. -/
def Chan.trySend (ch : Chan) (responseData : GoMap) : Chan :=
  if ch.receiving then { receiving := false, received := some responseData } else ch

/-- One event of the race. -/
def raceStep (client : Client) (http : GoString → Option GoString) (otp nonce : GoString)
    (ch : Chan) : Event → Chan
  | Event.receive => if ch.received.isNone then { ch with receiving := true } else ch
  | Event.finish server =>
    match api client http server otp nonce with
    | none => ch
    | some responseData => ch.trySend responseData

/-- The channel after a sequence of events, from the freshly made channel. -/
def race (client : Client) (http : GoString → Option GoString) (otp nonce : GoString)
    (events : List Event) : Chan :=
  events.foldl (raceStep client http otp nonce) { receiving := false, received := none }

/-- Lines 114-129: the checks of `Validate` on the received response. -/
def reconcile (otp nonce : GoString) (responseData : GoMap) : Option Error :=
  if otp ≠ responseData.index (str "otp") then
    some Error.ErrMismatchOTP
  else if nonce ≠ responseData.index (str "nonce") then
    some Error.ErrMismatchNonce
  else if responseData.index (str "status") ≠ str "OK" then
    some Error.ErrStatus
  else
    none

/-- `Client.Validate` under a schedule of events: `none` when nothing is ever
received (the call stays blocked at line 111), else the error returned. -/
def Validate (client : Client) (http : GoString → Option GoString) (draws : Nat → Fin 35)
    (events : List Event) (otp : GoString) : Option (Option Error) :=
  let nonce := nonce otp draws
  match (race client http otp nonce events).received with
  | none => none
  | some responseData => some (reconcile otp nonce responseData)

/-! ## The alphabets and the table as the specification lists them -/

/-- The lower-case form of an ASCII upper-case letter, any other byte
unchanged. -/
def lowerByte (b : Nat) : Nat :=
  if 65 ≤ b ∧ b ≤ 90 then b + 32 else b

/-- The upper-case form of an ASCII lower-case letter, any other byte
unchanged. -/
def upperByte (b : Nat) : Nat :=
  if 97 ≤ b ∧ b ≤ 122 then b - 32 else b

/-- Specification side: one of the 16 canonical letters
`c b d e f g h i j k l n r t u v`, in either case. -/
def specCanonical (b : Nat) : Bool :=
  (str "cbdefghijklnrtuv").contains (lowerByte b)

/-- Specification side: one of the alternate-layout characters
`j x e . u i d c h t n b p y g k`, or the upper-case form of one of the
letters among them. -/
def specAlternate (b : Nat) : Bool :=
  (str "jxe.uidchtnbpygk").contains (lowerByte b)

/-- Specification side: the substitution table on lower-case characters. -/
def specTableLower : List (Char × Char) :=
  [('j', 'c'), ('x', 'b'), ('e', 'd'), ('.', 'e'), ('u', 'f'), ('i', 'g'), ('d', 'h'), ('c', 'i'),
   ('h', 'j'), ('t', 'k'), ('n', 'l'), ('b', 'n'), ('p', 'r'), ('y', 't'), ('g', 'u'), ('k', 'v')]

/-- Specification side: the image of one character under the table, an
upper-case letter going to the upper-case form of the image of its lower-case
form. -/
def specTranslate (b : Nat) : Nat :=
  match specTableLower.find? (fun p => p.1.toNat == lowerByte b) with
  | some p => if 65 ≤ b ∧ b ≤ 90 then upperByte p.2.toNat else p.2.toNat
  | none => b

/-- Specification side: the binding of the key `k` after parsing `body`.  The
body is split on `\n`; the LAST line that has a `=` and whose text before its
first `=` is `k` binds `k` to its text after that first `=`, trimmed of
carriage returns and newlines; without such a line `k` is unbound. -/
def specBinding (body k : GoString) : Option GoString :=
  match (Split ( '\n'.toNat) body).reverse.find?
      (fun line => line.contains ( '='.toNat) && line.takeWhile (fun b => b != '='.toNat) == k) with
  | some line => some (Trim ((line.dropWhile (fun b => b != '='.toNat)).drop 1) (str "\n\r"))
  | none => none

/-- What may have been received on the channel: a response some handler
offered, parsed from a body that was read and whose status is not
`REPLAYED_REQUEST`, tagged with the handler's server. -/
def Offered (client : Client) (http : GoString → Option GoString) (otp nonce : GoString)
    (r : GoMap) : Prop :=
  ∃ server response, http (requestURL client server otp nonce) = some response ∧
    (parseResponse response).index (str "status") ≠ str "REPLAYED_REQUEST" ∧
    r = (parseResponse response).set (str "_server") server

/-! ## Concrete inputs used below -/

/-- The OTP of the repository's tests. -/
def testOTP : GoString :=
  str "ccccccidlfvvvuefkdgcilrjcfffijigdhrbvngfgelb"

/-- A text of 20 characters whose UTF-8 encoding has 40 bytes. -/
def accentedText : String :=
  "éééééééééééééééééééé"

/-- A text of 48 characters, 47 times `c` and one `é`, whose UTF-8 encoding
has 49 bytes. -/
def wideMixedText : String :=
  "cccccccccccccccccccccccccccccccccccccccccccccccé"

/-- A text of 33 characters, one `c` and 32 times `é`, whose UTF-8 encoding
has 65 bytes. -/
def wideIdentityText : String :=
  "céééééééééééééééééééééééééééééééé"

/-- A client with one server. -/
def oneServer : Client :=
  { ClientID := str "1", Servers := [str "api.yubico.com"] }

/-- A random source whose every draw is 0: the nonce is forty times `0`. -/
def zeroDraws : Nat → Fin 35 :=
  fun _ => 0

/-- An accepting body for `testOTP` and the nonce of `zeroDraws`. -/
def okBody : GoString :=
  str "otp=ccccccidlfvvvuefkdgcilrjcfffijigdhrbvngfgelb\r\nnonce=0000000000000000000000000000000000000000\r\nstatus=OK\r\n"

/-- A transport whose every request is answered with `okBody`. -/
def okTransport : GoString → Option GoString :=
  fun _ => some okBody

/-- The response the handler of `oneServer` offers under `okTransport`. -/
def okResponse : GoMap :=
  (parseResponse okBody).set (str "_server") (str "api.yubico.com")

/-- A body with a line without `=`, a key bound twice, a value that contains
`=`, and a `_server` line. -/
def oddBody : GoString :=
  str "status=first\r\nno separator here\r\nh=a=b\r\n_server=elsewhere\r\nstatus=OK\r\n"

/-- A body whose status is `REPLAYED_REQUEST`. -/
def replayedBody : GoString :=
  str "otp=ccccccidlfvvvuefkdgcilrjcfffijigdhrbvngfgelb\r\nnonce=0000000000000000000000000000000000000000\r\nstatus=REPLAYED_REQUEST\r\n"

/-- A client with two servers. -/
def twoServers : Client :=
  { ClientID := str "1", Servers := [str "api.yubico.com", str "api2.yubico.com"] }

/-- A transport under which `api.yubico.com` answers `replayedBody` and every
other server `okBody`, for `testOTP` and the nonce of `zeroDraws`. -/
def replayThenOk : GoString → Option GoString :=
  fun url =>
    if url = requestURL twoServers (str "api.yubico.com") testOTP (nonce testOTP zeroDraws) then
      some replayedBody
    else some okBody

/-! ## `New` (lines 45-59) and the error texts (lines 22-26) -/

/-- The server list of line 53. -/
def defaultServers : List GoString :=
  [str "api.yubico.com", str "api2.yubico.com", str "api3.yubico.com", str "api4.yubico.com",
   str "api5.yubico.com"]

/-- `New`: the slice argument `servers` is `none` for the nil slice and
`some l` for a slice holding the elements `l`, which may be none at all. -/
def New (clientID : GoString) (servers : Option (List GoString)) : Client :=
  match servers with
  | none => { ClientID := clientID, Servers := defaultServers }
  | some l => { ClientID := clientID, Servers := l }

/-- What method `Error()` returns for the five values made by `errors.New`: the
text each was made with, which is all that such a value holds. -/
def Error.message : Error → GoString
  | Error.ErrInvalidLength => str "otp: invalid length"
  | Error.ErrInvalidOTP => str "otp: invalid format or contains invalid characters"
  | Error.ErrMismatchOTP => str "validate: mismatched otp"
  | Error.ErrMismatchNonce => str "validate: mismatched nonce"
  | Error.ErrStatus => str "validate: non-OK status received"

/-! ## Specification side of the race and of the inverse table -/

/-- Specification side: among the servers in the order their handlers finish,
the response of the first one that had no transport error and whose status is
not `REPLAYED_REQUEST`. -/
def specFirstEligible (client : Client) (http : GoString → Option GoString)
    (otp nonce : GoString) : List GoString → Option GoMap
  | [] => none
  | server :: later =>
    match api client http server otp nonce with
    | some responseData => some responseData
    | none => specFirstEligible client http otp nonce later

/-- Specification side: the inverse of the substitution table on one
character, an upper-case letter going to the upper-case form of the inverse
image of its lower-case form. -/
def specInverse (b : Nat) : Nat :=
  match specTableLower.find? (fun p => p.2.toNat == lowerByte b) with
  | some p => if 65 ≤ b ∧ b ≤ 90 then upperByte p.1.toNat else p.1.toNat
  | none => b

/-- Specification side: `s` with only its trailing carriage returns and
newlines removed. -/
def specTrimTail (s : GoString) : GoString :=
  (s.reverse.dropWhile (fun b => (str "\n\r").contains b)).reverse

/-! ## More concrete inputs -/

/-- A client with three servers. -/
def threeServers : Client :=
  { ClientID := str "1", Servers := [str "a.example", str "b.example", str "c.example"] }

/-- A transport under which `a.example` times out, `b.example` answers
`replayedBody` and `c.example` answers `okBody`, for `testOTP` and the nonce of
`zeroDraws`. -/
def timeoutReplayOk : GoString → Option GoString :=
  fun url =>
    if url = requestURL threeServers (str "a.example") testOTP (nonce testOTP zeroDraws) then none
    else if url = requestURL threeServers (str "b.example") testOTP (nonce testOTP zeroDraws) then
      some replayedBody
    else some okBody

/-- A rejecting body for `testOTP` and the nonce of `zeroDraws`. -/
def badBody : GoString :=
  str "otp=ccccccidlfvvvuefkdgcilrjcfffijigdhrbvngfgelb\r\nnonce=0000000000000000000000000000000000000000\r\nstatus=BAD_OTP\r\n"

/-- A transport under which `api.yubico.com` answers `okBody` and every other
server `badBody`, for `testOTP` and the nonce of `zeroDraws`. -/
def okThenBad : GoString → Option GoString :=
  fun url =>
    if url = requestURL twoServers (str "api.yubico.com") testOTP (nonce testOTP zeroDraws) then
      some okBody
    else some badBody

/-- A response with matching fields for `testOTP` and the nonce of `zeroDraws`,
and the given status. -/
def responseWithStatus (status : GoString) : GoMap :=
  ((GoMap.empty.set (str "otp") testOTP).set (str "nonce") (nonce testOTP zeroDraws)).set
    (str "status") status

/-- The test OTP as typed on the alternate layout. -/
def testOTPAlternate : GoString :=
  str "jjjjjjcenukkkg.uteijcnphjuuuchciedpxkbiui.nx"

/-- A transport that answers `okBody` at the URL of `api.yubico.com` for
`testOTP` and the nonce of `zeroDraws`, and fails everywhere else. -/
def onlyVerifyURL : GoString → Option GoString :=
  fun url =>
    if url = str "https://api.yubico.com/wsapi/2.0/verify?id=1&otp=ccccccidlfvvvuefkdgcilrjcfffijigdhrbvngfgelb&nonce=0000000000000000000000000000000000000000&sl=secure"
    then some okBody
    else none

/-! ## Basic facts -/

theorem matchClassRepeat_iff (cls s : GoString) (lo hi : Nat) :
    matchClassRepeat cls lo hi s = true ↔ lo ≤ s.length ∧ s.length ≤ hi ∧ ∀ b ∈ s, b ∈ cls := by
  simp [matchClassRepeat, and_assoc]

theorem lowerByte_of_ge {b : Nat} (h : ¬ b < 128) : lowerByte b = b := by
  unfold lowerByte
  rw [if_neg]
  omega

theorem mem_qwertyClass_iff (b : Nat) : b ∈ qwertyClass ↔ specCanonical b = true := by
  by_cases h : b < 128
  · revert b
    decide
  · have h1 : ∀ x ∈ qwertyClass, x < 128 := by decide
    have h2 : ∀ x ∈ str "cbdefghijklnrtuv", x < 128 := by decide
    constructor
    · intro hb
      exact absurd (h1 b hb) h
    · intro hb
      simp only [specCanonical, lowerByte_of_ge h] at hb
      rw [List.elem_iff] at hb
      exact absurd (h2 b hb) h

theorem mem_dvorakClass_iff (b : Nat) : b ∈ dvorakClass ↔ specAlternate b = true := by
  by_cases h : b < 128
  · revert b
    decide
  · have h1 : ∀ x ∈ dvorakClass, x < 128 := by decide
    have h2 : ∀ x ∈ str "jxe.uidchtnbpygk", x < 128 := by decide
    constructor
    · intro hb
      exact absurd (h1 b hb) h
    · intro hb
      simp only [specAlternate, lowerByte_of_ge h] at hb
      rw [List.elem_iff] at hb
      exact absurd (h2 b hb) h

/-- The source table sends every character of the alternate class into the
canonical class, to the image the specification's table gives. -/
theorem replaceByte_dvorak :
    ∀ b ∈ dvorakClass, replaceByte dvorakToQwertyOldNew b ∈ qwertyClass ∧
      replaceByte dvorakToQwertyOldNew b = specTranslate b := by
  decide

theorem matchDvorak_iff (s : GoString) :
    matchDvorak s = true ↔ 32 ≤ s.length ∧ s.length ≤ 48 ∧ ∀ b ∈ s, specAlternate b = true := by
  simp only [matchDvorak, matchClassRepeat_iff, mem_dvorakClass_iff]

theorem matchQwerty_iff (s : GoString) :
    matchQwerty s = true ↔ 32 ≤ s.length ∧ s.length ≤ 48 ∧ ∀ b ∈ s, specCanonical b = true := by
  simp only [matchQwerty, matchClassRepeat_iff, mem_qwertyClass_iff]

theorem dvorakToQwerty_length (s : GoString) : (dvorakToQwerty s).length = s.length := by
  simp [dvorakToQwerty, Replace]

theorem dvorakToQwerty_eq_map (s : GoString) (h : ∀ b ∈ s, specAlternate b = true) :
    dvorakToQwerty s = s.map specTranslate := by
  simp only [dvorakToQwerty, Replace]
  apply List.map_congr_left
  intro b hb
  exact (replaceByte_dvorak b ((mem_dvorakClass_iff b).2 (h b hb))).2

theorem dvorakToQwerty_canonical (s : GoString) (h : ∀ b ∈ s, specAlternate b = true) :
    ∀ b ∈ dvorakToQwerty s, specCanonical b = true := by
  intro b hb
  simp only [dvorakToQwerty, Replace, List.mem_map] at hb
  obtain ⟨a, ha, rfl⟩ := hb
  exact (mem_qwertyClass_iff _).1 (replaceByte_dvorak a ((mem_dvorakClass_iff a).2 (h a ha))).1

/-- Every character takes at least one byte. -/
theorem encodeRune_length_pos (r : Nat) : 1 ≤ (encodeRune r).length := by
  unfold encodeRune
  split_ifs <;> simp

theorem runesToString_length_ge (rs : List Nat) : rs.length ≤ (runesToString rs).length := by
  induction rs with
  | nil => simp [runesToString]
  | cons r rs ih =>
    have h := encodeRune_length_pos r
    simp only [runesToString, List.flatMap_cons, List.length_append, List.length_cons] at ih ⊢
    omega

theorem str_length_ge (s : String) : s.length ≤ (str s).length := by
  have h := runesToString_length_ge (s.toList.map Char.toNat)
  simpa [str] using h

theorem runesToString_ascii (rs : List Nat) (h : ∀ r ∈ rs, r < 128) : runesToString rs = rs := by
  induction rs with
  | nil => simp [runesToString]
  | cons r rs ih =>
    have hr : r < 128 := h r (List.mem_cons_self _ _)
    have ih2 := ih (fun x hx => h x (List.mem_cons_of_mem _ hx))
    simp only [runesToString, List.flatMap_cons] at ih2 ⊢
    rw [ih2]
    simp [encodeRune, hr]

/-- An ASCII text has as many bytes as characters. -/
theorem str_length_ascii (s : String) (h : ∀ c ∈ s.toList, c.toNat < 128) :
    (str s).length = s.length := by
  have h2 : ∀ r ∈ s.toList.map Char.toNat, r < 128 := by
    intro r hr
    obtain ⟨c, hc, rfl⟩ := List.mem_map.1 hr
    exact h c hc
  unfold str
  rw [runesToString_ascii _ h2, List.length_map]
  rfl

/-- Filling a buffer of `n` zeros at the indices `0 .. k-1`, in order, leaves
the first `k` cells filled and the others zero. -/
theorem fill_range (f : Nat → Nat) (n k : Nat) (hk : k ≤ n) :
    (List.range k).foldl (fun buf i => buf.set i (f i)) (List.replicate n 0)
      = (List.range k).map f ++ List.replicate (n - k) 0 := by
  induction k with
  | zero => simp
  | succ k ih =>
    have hk2 : k ≤ n := by omega
    rw [List.range_succ, List.foldl_append, ih hk2]
    have hrep : List.replicate (n - k) 0 = (0 : Nat) :: List.replicate (n - (k + 1)) 0 := by
      have : n - k = (n - (k + 1)) + 1 := by omega
      rw [this, List.replicate_succ]
    have hlen : ((List.range k).map f).length = k := by simp
    simp only [List.foldl_cons, List.foldl_nil, List.map_append, List.map_cons, List.map_nil]
    rw [hrep, List.set_append_right _ _ (by omega), hlen]
    simp

theorem nonceRunes_eq_map (draws : Nat → Fin 35) :
    nonceRunes draws = (List.range 40).map (fun i => nonceRune (draws i).val) := by
  have h := fill_range (fun i => nonceRune (draws i).val) 40 40 (le_refl 40)
  simpa [nonceRunes] using h

/-- The rune of a draw below 35 is an ASCII digit or lower-case letter. -/
theorem nonceRune_range (c : Fin 35) :
    (48 ≤ nonceRune c.val ∧ nonceRune c.val ≤ 57) ∨ (97 ≤ nonceRune c.val ∧ nonceRune c.val ≤ 122) := by
  have hc := c.isLt
  unfold nonceRune
  split <;> omega

theorem dropWhile_ne_eq_nil_iff (sep : Nat) (s : GoString) :
    s.dropWhile (fun b => b != sep) = [] ↔ sep ∉ s := by
  induction s with
  | nil => simp
  | cons a s ih =>
    by_cases h : a = sep
    · subst h
      simp [List.dropWhile_cons]
    · have h2 : ¬ sep = a := fun e => h e.symm
      simp [List.dropWhile_cons, h, h2, ih]

theorem SplitN2_of_not_mem (sep : Nat) (s : GoString) (h : sep ∉ s) : SplitN2 sep s = [s] := by
  unfold SplitN2
  rw [(dropWhile_ne_eq_nil_iff sep s).2 h]

theorem SplitN2_of_mem (sep : Nat) (s : GoString) (h : sep ∈ s) :
    SplitN2 sep s = [s.takeWhile (fun b => b != sep), (s.dropWhile (fun b => b != sep)).drop 1] := by
  unfold SplitN2
  cases hd : s.dropWhile (fun b => b != sep) with
  | nil => exact absurd h ((dropWhile_ne_eq_nil_iff sep s).1 hd)
  | cons a after => simp

/-- One section of the body: a section with a `=` binds its key, any other
section leaves the map as it is. -/
theorem parseSection_eq (m : GoMap) (sect : GoString) :
    parseSection m sect =
      if sect.contains ( '='.toNat) then
        m.set (sect.takeWhile (fun b => b != '='.toNat))
          (Trim ((sect.dropWhile (fun b => b != '='.toNat)).drop 1) (str "\n\r"))
      else m := by
  by_cases h : ( '='.toNat) ∈ sect
  · have hc : sect.contains ( '='.toNat) = true := List.elem_iff.2 h
    rw [if_pos hc]
    unfold parseSection
    rw [SplitN2_of_mem _ _ h]
  · have hc : ¬ sect.contains ( '='.toNat) = true := fun hc => h (List.elem_iff.1 hc)
    rw [if_neg hc]
    unfold parseSection
    rw [SplitN2_of_not_mem _ _ h]

theorem foldl_parseSection (ls : List GoString) (m : GoMap) (k : GoString) :
    ls.foldl parseSection m k =
      match ls.reverse.find?
          (fun line => line.contains ( '='.toNat) && line.takeWhile (fun b => b != '='.toNat) == k) with
      | some line => some (Trim ((line.dropWhile (fun b => b != '='.toNat)).drop 1) (str "\n\r"))
      | none => m k := by
  induction ls generalizing m with
  | nil => simp
  | cons l ls ih =>
    rw [List.foldl_cons, ih, List.reverse_cons, List.find?_append]
    cases hf : ls.reverse.find?
        (fun line => line.contains ( '='.toNat) && line.takeWhile (fun b => b != '='.toNat) == k) with
    | some line => simp
    | none =>
      rw [parseSection_eq]
      by_cases hc : l.contains ( '='.toNat) = true
      · by_cases hk : l.takeWhile (fun b => b != '='.toNat) = k
        · have hp : (l.contains ( '='.toNat) && l.takeWhile (fun b => b != '='.toNat) == k) = true := by
            rw [hc, hk]
            simp
          rw [if_pos hc, List.find?_cons, hp]
          simp only [Option.none_or, GoMap.set]
          rw [if_pos hk.symm]
        · have hp : (l.contains ( '='.toNat) && l.takeWhile (fun b => b != '='.toNat) == k) = false := by
            rw [hc]
            simpa using hk
          rw [if_pos hc, List.find?_cons, hp]
          simp only [Option.none_or, GoMap.set, List.find?_nil]
          rw [if_neg (fun e => hk e.symm)]
      · have hp : (l.contains ( '='.toNat) && l.takeWhile (fun b => b != '='.toNat) == k) = false := by
          rw [Bool.not_eq_true] at hc
          rw [hc]
          rfl
        rw [if_neg hc, List.find?_cons, hp]
        simp only [Option.none_or, List.find?_nil]

theorem set_server_status (m : GoMap) (server : GoString) :
    (m.set (str "_server") server).index (str "status") = m.index (str "status") := by
  have h : ¬ str "status" = str "_server" := by decide
  simp [GoMap.set, GoMap.index, h]

theorem api_some (client : Client) (http : GoString → Option GoString)
    (server otp nonce : GoString) (r : GoMap) (h : api client http server otp nonce = some r) :
    Offered client http otp nonce r := by
  unfold api at h
  cases hh : http (requestURL client server otp nonce) with
  | none => simp [hh] at h
  | some response =>
    rw [hh] at h
    simp only [apiOffer] at h
    by_cases hs : (parseResponse response).index (str "status") = str "REPLAYED_REQUEST"
    · simp [hs] at h
    · simp only [if_neg hs, Option.some.injEq] at h
      exact ⟨server, response, hh, hs, h.symm⟩

theorem raceStep_received (client : Client) (http : GoString → Option GoString)
    (otp nonce : GoString) (ch : Chan) (e : Event)
    (h : ∀ r, ch.received = some r → Offered client http otp nonce r) :
    ∀ r, (raceStep client http otp nonce ch e).received = some r →
      Offered client http otp nonce r := by
  intro r hr
  cases e with
  | receive =>
    simp only [raceStep] at hr
    split at hr
    · exact h r hr
    · exact h r hr
  | finish server =>
    simp only [raceStep] at hr
    cases ha : api client http server otp nonce with
    | none =>
      rw [ha] at hr
      exact h r hr
    | some rd =>
      rw [ha] at hr
      simp only [Chan.trySend] at hr
      split at hr
      · simp only [Option.some.injEq] at hr
        subst hr
        exact api_some client http server otp nonce rd ha
      · exact h r hr

theorem foldl_raceStep_received (client : Client) (http : GoString → Option GoString)
    (otp nonce : GoString) (events : List Event) (ch : Chan)
    (h : ∀ r, ch.received = some r → Offered client http otp nonce r) :
    ∀ r, (events.foldl (raceStep client http otp nonce) ch).received = some r →
      Offered client http otp nonce r := by
  induction events generalizing ch with
  | nil => simpa using h
  | cons e es ih =>
    rw [List.foldl_cons]
    exact ih _ (raceStep_received client http otp nonce ch e h)

theorem race_received (client : Client) (http : GoString → Option GoString)
    (otp nonce : GoString) (events : List Event) (r : GoMap)
    (h : (race client http otp nonce events).received = some r) :
    Offered client http otp nonce r := by
  unfold race at h
  exact foldl_raceStep_received client http otp nonce events _ (by simp) r h

/-- Once a response has been received the channel no longer changes. -/
theorem foldl_raceStep_settled (client : Client) (http : GoString → Option GoString)
    (otp nonce : GoString) (events : List Event) (r : GoMap) :
    events.foldl (raceStep client http otp nonce) { receiving := false, received := some r }
      = { receiving := false, received := some r } := by
  induction events with
  | nil => rfl
  | cons e es ih =>
    rw [List.foldl_cons]
    cases e with
    | receive => simpa [raceStep] using ih
    | finish server =>
      cases ha : api client http server otp nonce with
      | none => simpa [raceStep, ha] using ih
      | some rd => simpa [raceStep, ha, Chan.trySend] using ih

/-- A handler that finishes before the caller receives leaves the fresh channel
as it is. -/
theorem foldl_raceStep_early (client : Client) (http : GoString → Option GoString)
    (otp nonce : GoString) (early : List GoString) :
    (early.map Event.finish).foldl (raceStep client http otp nonce)
        { receiving := false, received := none }
      = { receiving := false, received := none } := by
  induction early with
  | nil => rfl
  | cons server rest ih =>
    rw [List.map_cons, List.foldl_cons]
    cases ha : api client http server otp nonce with
    | none => simpa [raceStep, ha] using ih
    | some rd => simpa [raceStep, ha, Chan.trySend] using ih

/-- While the caller is receiving, the first handler to finish with an offer
delivers it. -/
theorem foldl_raceStep_receiving (client : Client) (http : GoString → Option GoString)
    (otp nonce : GoString) (later : List GoString) :
    ((later.map Event.finish).foldl (raceStep client http otp nonce)
        { receiving := true, received := none }).received
      = specFirstEligible client http otp nonce later := by
  induction later with
  | nil => rfl
  | cons server rest ih =>
    rw [List.map_cons, List.foldl_cons]
    cases ha : api client http server otp nonce with
    | none => simpa [raceStep, ha, specFirstEligible] using ih
    | some rd =>
      simp only [raceStep, ha, Chan.trySend, specFirstEligible, if_true]
      rw [foldl_raceStep_settled]

theorem nonce_eq_map (otp : GoString) (draws : Nat → Fin 35) :
    nonce otp draws = (List.range 40).map (fun i => nonceRune (draws i).val) := by
  unfold nonce
  rw [← nonceRunes_eq_map]
  apply runesToString_ascii
  intro r hr
  rw [nonceRunes_eq_map, List.mem_map] at hr
  obtain ⟨i, _, rfl⟩ := hr
  have := nonceRune_range (draws i)
  omega

/-- The largest rune a draw below 35 gives is `y`. -/
theorem nonceRune_le_y (c : Fin 35) : nonceRune c.val ≤ 121 := by
  have hc := c.isLt
  unfold nonceRune
  split <;> omega

theorem contains_iff_mem (l : GoString) (b : Nat) : l.contains b = true ↔ b ∈ l :=
  List.elem_iff

theorem dropWhile_head_not (p : Nat → Bool) (l : GoString) (b : Nat)
    (h : (l.dropWhile p).head? = some b) : p b = false := by
  have h2 := List.head?_dropWhile_not p l
  rw [h] at h2
  exact h2

/-- `Trim` splits its argument into a run of cutset bytes, the result, and a run
of cutset bytes; the result neither starts nor ends with a cutset byte. -/
theorem Trim_decompose (s cutset : GoString) :
    ∃ pre post, s = pre ++ Trim s cutset ++ post ∧
      (∀ b ∈ pre, b ∈ cutset) ∧ (∀ b ∈ post, b ∈ cutset) ∧
      (∀ b, (Trim s cutset).head? = some b → b ∉ cutset) ∧
      (∀ b, (Trim s cutset).getLast? = some b → b ∉ cutset) := by
  have hsplit : s.dropWhile (fun b => cutset.contains b)
      = Trim s cutset
        ++ ((s.dropWhile (fun b => cutset.contains b)).reverse.takeWhile
            (fun b => cutset.contains b)).reverse := by
    have h := List.takeWhile_append_dropWhile (fun b => cutset.contains b)
      (s.dropWhile (fun b => cutset.contains b)).reverse
    have h2 := congrArg List.reverse h
    rw [List.reverse_append, List.reverse_reverse] at h2
    exact h2.symm
  have hlast : ∀ b, (Trim s cutset).getLast? = some b → b ∉ cutset := by
    intro b hb
    unfold Trim at hb
    rw [List.getLast?_reverse] at hb
    have := dropWhile_head_not _ _ b hb
    intro hmem
    rw [(contains_iff_mem cutset b).2 hmem] at this
    exact Bool.noConfusion this
  refine ⟨s.takeWhile (fun b => cutset.contains b),
    ((s.dropWhile (fun b => cutset.contains b)).reverse.takeWhile
      (fun b => cutset.contains b)).reverse, ?_, ?_, ?_, ?_, hlast⟩
  · rw [List.append_assoc, ← hsplit, List.takeWhile_append_dropWhile]
  · intro b hb
    exact (contains_iff_mem cutset b).1 (List.mem_takeWhile_imp hb)
  · intro b hb
    rw [List.mem_reverse] at hb
    exact (contains_iff_mem cutset b).1 (List.mem_takeWhile_imp hb)
  · intro b hb
    by_cases hnil : Trim s cutset = []
    · rw [hnil] at hb
      exact Option.noConfusion hb
    · have hh : (s.dropWhile (fun b => cutset.contains b)).head? = some b := by
        rw [hsplit, List.head?_append_of_ne_nil _ hnil]
        exact hb
      have := dropWhile_head_not _ _ b hh
      intro hmem
      rw [(contains_iff_mem cutset b).2 hmem] at this
      exact Bool.noConfusion this

theorem parseSection_key_value (m : GoMap) (key value : GoString) (h : '='.toNat ∉ key) :
    parseSection m (key ++ '='.toNat :: value) = m.set key (Trim value (str "\n\r")) := by
  have hmem : '='.toNat ∈ key ++ '='.toNat :: value := by simp
  have hd : ∀ l : GoString, '='.toNat ∉ l →
      (l ++ '='.toNat :: value).dropWhile (fun b => b != '='.toNat) = '='.toNat :: value ∧
      (l ++ '='.toNat :: value).takeWhile (fun b => b != '='.toNat) = l := by
    intro l
    induction l with
    | nil => simp [List.dropWhile_cons, List.takeWhile_cons]
    | cons a l ih =>
      intro ha
      have h1 : ¬ a = '='.toNat := fun e => ha (by simp [e])
      have h2 : '='.toNat ∉ l := fun e => ha (List.mem_cons_of_mem _ e)
      have ih2 := ih h2
      constructor
      · rw [List.cons_append, List.dropWhile_cons, if_pos (by simpa using h1)]
        exact ih2.1
      · rw [List.cons_append, List.takeWhile_cons, if_pos (by simpa using h1)]
        rw [ih2.2]
  unfold parseSection
  rw [SplitN2_of_mem _ _ hmem, (hd key h).1, (hd key h).2]
  rfl

/-- No byte is translated to the upper-case `E`: the pair `.`, `E` of line 31
comes after the pair `.`, `e` of line 29 and is never used. -/
theorem replaceByte_ne_E (b : Nat) : replaceByte dvorakToQwertyOldNew b ≠ 'E'.toNat := by
  by_cases h : b < 128
  · revert b
    decide
  · have hkeys : ∀ p ∈ dvorakToQwertyOldNew, p.1.toNat < 128 := by decide
    have hnone : dvorakToQwertyOldNew.find? (fun p => p.1.toNat == b) = none := by
      rw [List.find?_eq_none]
      intro p hp hpb
      have h1 := hkeys p hp
      have h2 : p.1.toNat = b := by simpa using hpb
      omega
    have hE : 'E'.toNat = 69 := by decide
    unfold replaceByte
    rw [hnone, hE]
    show b ≠ 69
    omega

theorem specCanonical_lt (b : Nat) (h : specCanonical b = true) : b < 128 := by
  have h1 : ∀ x ∈ qwertyClass, x < 128 := by decide
  exact h1 b ((mem_qwertyClass_iff b).2 h)

theorem specAlternate_lt (b : Nat) (h : specAlternate b = true) : b < 128 := by
  have h1 : ∀ x ∈ dvorakClass, x < 128 := by decide
  exact h1 b ((mem_dvorakClass_iff b).2 h)

/-- Every canonical character but the upper-case `E` is the image of its
inverse image, which is an alternate-layout character. -/
theorem replaceByte_specInverse (b : Nat) (hc : specCanonical b = true) (hE : b ≠ 'E'.toNat) :
    specAlternate (specInverse b) = true ∧
      replaceByte dvorakToQwertyOldNew (specInverse b) = b := by
  have hlt := specCanonical_lt b hc
  have key : ∀ x, x < 128 → specCanonical x = true → x ≠ 'E'.toNat →
      specAlternate (specInverse x) = true ∧
        replaceByte dvorakToQwertyOldNew (specInverse x) = x := by
    decide
  exact key b hlt hc hE

/-- The table is one-to-one on the alternate-layout characters. -/
theorem replaceByte_injective (a a' : Nat) (ha : specAlternate a = true)
    (ha' : specAlternate a' = true)
    (h : replaceByte dvorakToQwertyOldNew a = replaceByte dvorakToQwertyOldNew a') : a = a' := by
  have key : ∀ x ∈ dvorakClass, ∀ y ∈ dvorakClass,
      replaceByte dvorakToQwertyOldNew x = replaceByte dvorakToQwertyOldNew y → x = y := by
    decide
  exact key a ((mem_dvorakClass_iff a).2 ha) a' ((mem_dvorakClass_iff a').2 ha') h

theorem dvorakToQwerty_injective (d d' : GoString) (hd : ∀ b ∈ d, specAlternate b = true)
    (hd' : ∀ b ∈ d', specAlternate b = true) (h : dvorakToQwerty d = dvorakToQwerty d') :
    d = d' := by
  induction d generalizing d' with
  | nil =>
    cases d' with
    | nil => rfl
    | cons a' t' => simp [dvorakToQwerty, Replace] at h
  | cons a t ih =>
    cases d' with
    | nil => simp [dvorakToQwerty, Replace] at h
    | cons a' t' =>
      simp only [dvorakToQwerty, Replace, List.map_cons, List.cons.injEq] at h
      have h1 := replaceByte_injective a a' (hd a (List.mem_cons_self _ _))
        (hd' a' (List.mem_cons_self _ _)) h.1
      have h2 := ih t' (fun b hb => hd b (List.mem_cons_of_mem _ hb))
        (fun b hb => hd' b (List.mem_cons_of_mem _ hb)) h.2
      rw [h1, h2]

/-- The table moves every alternate-layout character. -/
theorem specTranslate_ne_self (b : Nat) (h : specAlternate b = true) : specTranslate b ≠ b := by
  have key : ∀ x ∈ dvorakClass, specTranslate x ≠ x := by decide
  exact key b ((mem_dvorakClass_iff b).2 h)

theorem GetIdentity_eq (otp : GoString) :
    GetIdentity otp = some (if otp.length < 33 then [] else otp.take (otp.length - 32)) := by
  by_cases h : otp.length < 33
  · simp [GetIdentity, h]
  · have hb : (0 : Int) ≤ (otp.length : Int) - 32 ∧ (otp.length : Int) - 32 ≤ (otp.length : Int) := by
      omega
    have ht : ((otp.length : Int) - 32).toNat = otp.length - 32 := by omega
    simp only [GetIdentity, if_neg h, sliceTo, if_pos hb, ht]

/-- The handler reads the transport at its request URL only. -/
theorem api_congr (client : Client) (http http' : GoString → Option GoString)
    (server otp nonce : GoString)
    (h : http (requestURL client server otp nonce) = http' (requestURL client server otp nonce)) :
    api client http server otp nonce = api client http' server otp nonce := by
  unfold api
  rw [h]

theorem race_congr (client : Client) (http http' : GoString → Option GoString)
    (otp nonce : GoString) (events : List Event)
    (h : ∀ server, http (requestURL client server otp nonce)
      = http' (requestURL client server otp nonce)) :
    race client http otp nonce events = race client http' otp nonce events := by
  have hstep : raceStep client http otp nonce = raceStep client http' otp nonce := by
    funext ch e
    cases e with
    | receive => rfl
    | finish server =>
      simp only [raceStep]
      rw [api_congr client http http' server otp nonce (h server)]
  unfold race
  rw [hstep]

/-! ## The claims -/

/-- C1: for every OTP `o`, nonce `n` and response map `r` (an absent key reading
as the empty string) the checks of `Validate` give `ErrMismatchOTP` when
`r["otp"] != o`, otherwise `ErrMismatchNonce` when `r["nonce"] != n`, otherwise
`ErrStatus` when `r["status"] != "OK"`, otherwise `nil`; they give `nil` exactly
when all three fields match; and this is what `Validate` returns for the
response `r` it received, with the nonce it generated. -/
theorem Validate_checks_in_order (client : Client) (http : GoString → Option GoString)
    (draws : Nat → Fin 35) (events : List Event) (o n : GoString) (r : GoMap) :
    reconcile o n r =
      (if r.index (str "otp") ≠ o then some Error.ErrMismatchOTP
       else if r.index (str "nonce") ≠ n then some Error.ErrMismatchNonce
       else if r.index (str "status") ≠ str "OK" then some Error.ErrStatus
       else none) ∧
    (reconcile o n r = none ↔
      r.index (str "otp") = o ∧ r.index (str "nonce") = n ∧ r.index (str "status") = str "OK") ∧
    ((race client http o (nonce o draws) events).received = some r →
      Validate client http draws events o = some (reconcile o (nonce o draws) r)) := by
  refine ⟨?_, ?_, ?_⟩
  · unfold reconcile
    by_cases h1 : r.index (str "otp") = o
    · by_cases h2 : r.index (str "nonce") = n
      · simp [h1, h2]
      · simp [h1, h2, Ne.symm h2]
    · simp [h1, Ne.symm h1]
  · unfold reconcile
    by_cases h1 : r.index (str "otp") = o
    · by_cases h2 : r.index (str "nonce") = n
      · by_cases h3 : r.index (str "status") = str "OK"
        · simp [h1, h2, h3]
        · simp [h1, h2, h3]
      · simp [h1, h2, Ne.symm h2]
    · simp [h1, Ne.symm h1]
  · intro h
    simp [Validate, h]

/-- Witness for C1: one server answers the test OTP with matching fields, and
`Validate` returns what the checks give on that response. -/
theorem Validate_checks_in_order_witness :
    (race oneServer okTransport testOTP (nonce testOTP zeroDraws)
        [Event.receive, Event.finish (str "api.yubico.com")]).received = some okResponse ∧
    Validate oneServer okTransport zeroDraws [Event.receive, Event.finish (str "api.yubico.com")]
      testOTP = some (reconcile testOTP (nonce testOTP zeroDraws) okResponse) ∧
    reconcile testOTP (nonce testOTP zeroDraws) okResponse = none :=
  ⟨rfl, (Validate_checks_in_order oneServer okTransport zeroDraws
      [Event.receive, Event.finish (str "api.yubico.com")] testOTP [] okResponse).2.2 rfl, by decide⟩

/-- C2, as stated, fails: a text of 20 characters (fewer than 32) whose
encoding has 40 bytes passes the length test of line 67 and is rejected with
`ErrInvalidOTP`, not `ErrInvalidLength`. -/
theorem IsValidOTP_length_in_characters_counterexample :
    accentedText.length = 20 ∧ (str accentedText).length = 40 ∧
    IsValidOTP (str accentedText) = some Error.ErrInvalidOTP ∧
    IsValidOTP (str accentedText) ≠ some Error.ErrInvalidLength := by
  decide

/-- C2, amended: for every input string whose length in bytes (`len`) is less
than 32 or greater than 48, `IsValidOTP` returns `ErrInvalidLength`, whatever
the string contains; this covers every text of more than 48 characters and
every ASCII text of fewer than 32 characters. -/
theorem IsValidOTP_invalid_length :
    (∀ otp : GoString, otp.length < 32 ∨ otp.length > 48 →
      IsValidOTP otp = some Error.ErrInvalidLength) ∧
    (∀ s : String, 48 < s.length → IsValidOTP (str s) = some Error.ErrInvalidLength) ∧
    (∀ s : String, (∀ c ∈ s.toList, c.toNat < 128) → s.length < 32 →
      IsValidOTP (str s) = some Error.ErrInvalidLength) := by
  have key : ∀ otp : GoString, otp.length < 32 ∨ otp.length > 48 →
      IsValidOTP otp = some Error.ErrInvalidLength := by
    intro otp h
    simp [IsValidOTP, h]
  refine ⟨key, ?_, ?_⟩
  · intro s hs
    have := str_length_ge s
    exact key _ (Or.inr (by omega))
  · intro s hascii hs
    have := str_length_ascii s hascii
    exact key _ (Or.inl (by omega))

/-- Witness for C2: the two length cases of the repository's test. -/
theorem IsValidOTP_invalid_length_witness :
    (str "not 32-48 char string").length < 32 ∧
    IsValidOTP (str "not 32-48 char string") = some Error.ErrInvalidLength ∧
    48 < "definitely a string that is longer than 48 characters just because we can!".length ∧
    IsValidOTP (str "definitely a string that is longer than 48 characters just because we can!")
      = some Error.ErrInvalidLength :=
  ⟨by decide, IsValidOTP_invalid_length.1 _ (Or.inl (by decide)), by decide,
    IsValidOTP_invalid_length.2.1 _ (by decide)⟩

/-- C3: for every string of length 32 to 48 made only of the 16 canonical
letters, in either case, `IsValidOTP` returns `nil`, also when the string
consists only of alternate-layout characters and is translated first. -/
theorem IsValidOTP_canonical (otp : GoString) (hlo : 32 ≤ otp.length) (hhi : otp.length ≤ 48)
    (h : ∀ b ∈ otp, specCanonical b = true) : IsValidOTP otp = none := by
  have hq : matchQwerty (convertLayout otp) = true := by
    unfold convertLayout
    by_cases hd : matchDvorak otp = true
    · rw [if_pos hd]
      rw [matchQwerty_iff, dvorakToQwerty_length]
      exact ⟨hlo, hhi, dvorakToQwerty_canonical otp ((matchDvorak_iff otp).1 hd).2.2⟩
    · rw [if_neg hd]
      exact (matchQwerty_iff otp).2 ⟨hlo, hhi, h⟩
  have hlen : ¬ (otp.length < 32 ∨ otp.length > 48) := by omega
  simp [IsValidOTP, hlen, hq]

/-- Witness for C3: the test OTP, and forty times `c`, a canonical string that
consists only of alternate-layout characters. -/
theorem IsValidOTP_canonical_witness :
    IsValidOTP testOTP = none ∧
    matchDvorak (str "cccccccccccccccccccccccccccccccccccccccc") = true ∧
    IsValidOTP (str "cccccccccccccccccccccccccccccccccccccccc") = none :=
  ⟨IsValidOTP_canonical testOTP (by decide) (by decide) (by decide), by decide,
    IsValidOTP_canonical (str "cccccccccccccccccccccccccccccccccccccccc") (by decide) (by decide)
      (by decide)⟩

/-- C4: for every string of length 32 to 48 made only of alternate-layout
characters, `IsValidOTP` returns `nil`, and the string it tests against the
canonical pattern is the character-by-character image under the table of the
specification, which has the same length and lies in the canonical
alphabet. -/
theorem IsValidOTP_alternate (otp : GoString) (hlo : 32 ≤ otp.length) (hhi : otp.length ≤ 48)
    (h : ∀ b ∈ otp, specAlternate b = true) :
    IsValidOTP otp = none ∧ convertLayout otp = otp.map specTranslate ∧
    (convertLayout otp).length = otp.length ∧
    ∀ b ∈ convertLayout otp, specCanonical b = true := by
  have hd : matchDvorak otp = true := (matchDvorak_iff otp).2 ⟨hlo, hhi, h⟩
  have hc : convertLayout otp = dvorakToQwerty otp := by simp [convertLayout, hd]
  have hq : matchQwerty (convertLayout otp) = true := by
    rw [hc, matchQwerty_iff, dvorakToQwerty_length]
    exact ⟨hlo, hhi, dvorakToQwerty_canonical otp h⟩
  have hlen : ¬ (otp.length < 32 ∨ otp.length > 48) := by omega
  refine ⟨by simp [IsValidOTP, hlen, hq], ?_, ?_, ?_⟩
  · rw [hc]
    exact dvorakToQwerty_eq_map otp h
  · rw [hc]
    exact dvorakToQwerty_length otp
  · rw [hc]
    exact dvorakToQwerty_canonical otp h

/-- Witness for C4: a string holding every alternate-layout character, in lower
and in upper case, and its image. -/
theorem IsValidOTP_alternate_witness :
    IsValidOTP (str "jxe.uidchtnbpygkJXE.UIDCHTNBPYGK") = none ∧
    convertLayout (str "jxe.uidchtnbpygkJXE.UIDCHTNBPYGK")
      = str "cbdefghijklnrtuvCBDeFGHIJKLNRTUV" :=
  have h := IsValidOTP_alternate (str "jxe.uidchtnbpygkJXE.UIDCHTNBPYGK") (by decide) (by decide)
    (by decide)
  ⟨h.1, h.2.1.trans (by decide)⟩

/-- C5, as stated, fails: a text of 48 characters, 47 times `c` and one `é`, is
neither made entirely of alternate-layout characters nor entirely of canonical
letters; its encoding has 49 bytes, and `IsValidOTP` returns
`ErrInvalidLength`, not `ErrInvalidOTP`. -/
theorem IsValidOTP_wide_mixed_counterexample :
    wideMixedText.length = 48 ∧ (str wideMixedText).length = 49 ∧
    (¬ ∀ b ∈ str wideMixedText, specAlternate b = true) ∧
    (¬ ∀ b ∈ str wideMixedText, specCanonical b = true) ∧
    IsValidOTP (str wideMixedText) = some Error.ErrInvalidLength ∧
    IsValidOTP (str wideMixedText) ≠ some Error.ErrInvalidOTP := by
  decide

/-- C5, amended: for every string whose length in bytes (`len`) is 32 to 48, so
for every ASCII text of 32 to 48 characters, that is neither made entirely of
alternate-layout characters nor made entirely of canonical letters,
`IsValidOTP` returns `ErrInvalidOTP`: the string is tested untranslated, no
part of it is translated. -/
theorem IsValidOTP_mixed (otp : GoString) (hlo : 32 ≤ otp.length) (hhi : otp.length ≤ 48)
    (halt : ¬ ∀ b ∈ otp, specAlternate b = true) (hcan : ¬ ∀ b ∈ otp, specCanonical b = true) :
    (IsValidOTP otp = some Error.ErrInvalidOTP ∧ convertLayout otp = otp) ∧
    (∀ s : String, (∀ c ∈ s.toList, c.toNat < 128) → 32 ≤ s.length → s.length ≤ 48 →
      (¬ ∀ b ∈ str s, specAlternate b = true) → (¬ ∀ b ∈ str s, specCanonical b = true) →
      IsValidOTP (str s) = some Error.ErrInvalidOTP ∧ convertLayout (str s) = str s) := by
  have key : ∀ x : GoString, 32 ≤ x.length → x.length ≤ 48 →
      (¬ ∀ b ∈ x, specAlternate b = true) → (¬ ∀ b ∈ x, specCanonical b = true) →
      IsValidOTP x = some Error.ErrInvalidOTP ∧ convertLayout x = x := by
    intro x hxlo hxhi hxalt hxcan
    have hd : ¬ matchDvorak x = true := fun hd => hxalt ((matchDvorak_iff x).1 hd).2.2
    have hc : convertLayout x = x := by simp [convertLayout, hd]
    have hq : ¬ matchQwerty (convertLayout x) = true := by
      rw [hc]
      exact fun hq => hxcan ((matchQwerty_iff x).1 hq).2.2
    have hlen : ¬ (x.length < 32 ∨ x.length > 48) := by omega
    exact ⟨by simp [IsValidOTP, hlen, hq], hc⟩
  refine ⟨key otp hlo hhi halt hcan, ?_⟩
  intro s hascii hslo hshi hsalt hscan
  have hl := str_length_ascii s hascii
  exact key (str s) (by omega) (by omega) hsalt hscan

/-- Witness for C5: `x` is only in the alternate alphabet and `f` only in the
canonical one; the second string is the one of the repository's test. -/
theorem IsValidOTP_mixed_witness :
    IsValidOTP (str "xfffffffffffffffffffffffffffffff") = some Error.ErrInvalidOTP ∧
    IsValidOTP (str "this string is definitely not an otp") = some Error.ErrInvalidOTP :=
  ⟨(IsValidOTP_mixed (str "xfffffffffffffffffffffffffffffff") (by decide) (by decide) (by decide)
      (by decide)).1.1,
   (IsValidOTP_mixed (str "this string is definitely not an otp") (by decide) (by decide)
      (by decide) (by decide)).1.1⟩

/-- C6, as stated, fails: a text of 33 characters, one `c` and 32 times `é`, has
65 bytes; `GetIdentity` returns its first 33 bytes, `c` and 16 times `é`, not
its first character, and that result followed by the last 32 characters of the
text is not the text. -/
theorem GetIdentity_wide_text_counterexample :
    wideIdentityText.length = 33 ∧ (str wideIdentityText).length = 65 ∧
    GetIdentity (str wideIdentityText) = some (str "céééééééééééééééé") ∧
    GetIdentity (str wideIdentityText) ≠ some (str "c") ∧
    str "céééééééééééééééé" ++ str "éééééééééééééééééééééééééééééééé"
      ≠ str wideIdentityText := by
  decide

/-- C6, amended: for every string `otp` whose length in bytes (`len`) is
`n ≥ 33`, `GetIdentity otp` is the first `n - 32` bytes of `otp`: followed by
the last 32 bytes it gives `otp` back; a string of 44 bytes yields its first
12, and the test OTP yields `ccccccidlfvv`.  So for every ASCII text of
`n ≥ 33` characters the result is the text of its first `n - 32` characters. -/
theorem GetIdentity_drops_last_32 (otp : GoString) (h : 33 ≤ otp.length) :
    GetIdentity otp = some (otp.take (otp.length - 32)) ∧
    (∃ identity last, GetIdentity otp = some identity ∧ identity.length = otp.length - 32 ∧
      last.length = 32 ∧ identity ++ last = otp) ∧
    (otp.length = 44 → GetIdentity otp = some (otp.take 12)) ∧
    GetIdentity testOTP = some (str "ccccccidlfvv") ∧
    (∀ s : String, (∀ c ∈ s.toList, c.toNat < 128) → 33 ≤ s.length →
      GetIdentity (str s) = some (str (String.mk (s.toList.take (s.length - 32))))) := by
  have h1 : GetIdentity otp = some (otp.take (otp.length - 32)) := by
    have hlt : ¬ otp.length < 33 := by omega
    have hb : (0 : Int) ≤ (otp.length : Int) - 32 ∧ (otp.length : Int) - 32 ≤ (otp.length : Int) := by
      omega
    have ht : ((otp.length : Int) - 32).toNat = otp.length - 32 := by omega
    simp only [GetIdentity, if_neg hlt, sliceTo, if_pos hb, ht]
  refine ⟨h1, ⟨otp.take (otp.length - 32), otp.drop (otp.length - 32), h1, ?_, ?_, ?_⟩, ?_,
    by decide, ?_⟩
  · rw [List.length_take]
    omega
  · rw [List.length_drop]
    omega
  · exact List.take_append_drop _ _
  · intro h44
    rw [h1, h44]
  · intro s hascii hs
    have hbytes : ∀ cs : List Char, (∀ c ∈ cs, c.toNat < 128) →
        str (String.mk cs) = cs.map Char.toNat := by
      intro cs hcs
      unfold str
      apply runesToString_ascii
      intro r hr
      obtain ⟨c, hc, rfl⟩ := List.mem_map.1 hr
      exact hcs c hc
    have htake : ∀ c ∈ s.toList.take (s.length - 32), c.toNat < 128 :=
      fun c hc => hascii c (List.mem_of_mem_take hc)
    have hs2 : str s = s.toList.map Char.toNat := hbytes s.toList hascii
    have hlen : (s.toList.map Char.toNat).length = s.length := by
      rw [List.length_map]
      rfl
    have hnot : ¬ s.length < 33 := by omega
    rw [hbytes _ htake, hs2, GetIdentity_eq, hlen, if_neg hnot, List.map_take]

/-- Witness for C6: the test OTP has length 44. -/
theorem GetIdentity_drops_last_32_witness :
    testOTP.length = 44 ∧ GetIdentity testOTP = some (testOTP.take 12) :=
  ⟨by decide, (GetIdentity_drops_last_32 testOTP (by decide)).2.2.1 (by decide)⟩

/-- C7, as stated, fails: a text of 20 characters (fewer than 33) has 40 bytes,
and `GetIdentity` returns its first 8 bytes, the text `éééé`, not the empty
string. -/
theorem GetIdentity_short_text_counterexample :
    accentedText.length < 33 ∧ GetIdentity (str accentedText) = some (str "éééé") ∧
    GetIdentity (str accentedText) ≠ some [] := by
  decide

/-- C7, amended: `GetIdentity` never panics, for every input string the slice
it takes is in bounds; and for every string shorter than 33 bytes (`len`), the
empty string and a string of exactly 32 bytes included, so for every ASCII
text shorter than 33 characters, it returns the empty string. -/
theorem GetIdentity_never_fails :
    (∀ otp : GoString, ∃ identity, GetIdentity otp = some identity) ∧
    (∀ otp : GoString, otp.length < 33 → GetIdentity otp = some []) ∧
    GetIdentity [] = some [] ∧
    (∀ otp : GoString, otp.length = 32 → GetIdentity otp = some []) ∧
    (∀ s : String, (∀ c ∈ s.toList, c.toNat < 128) → s.length < 33 →
      GetIdentity (str s) = some []) := by
  have key : ∀ otp : GoString, otp.length < 33 → GetIdentity otp = some [] := by
    intro otp h
    simp [GetIdentity, h]
  refine ⟨?_, key, key [] (by simp), ?_, ?_⟩
  · intro otp
    by_cases h : otp.length < 33
    · exact ⟨[], key otp h⟩
    · have hb : (0 : Int) ≤ (otp.length : Int) - 32 ∧ (otp.length : Int) - 32 ≤ (otp.length : Int) := by
        omega
      exact ⟨otp.take ((otp.length : Int) - 32).toNat,
        by simp only [GetIdentity, if_neg h, sliceTo, if_pos hb]⟩
  · intro otp h
    exact key otp (by omega)
  · intro s hascii hs
    have := str_length_ascii s hascii
    exact key _ (by omega)

/-- Witness for C7: the string of the repository's test, and one of exactly 32
bytes. -/
theorem GetIdentity_never_fails_witness :
    GetIdentity (str "string that would cause panic") = some [] ∧
    GetIdentity (str "cccccccccccccccccccccccccccccccc") = some [] :=
  ⟨GetIdentity_never_fails.2.1 _ (by decide), GetIdentity_never_fails.2.2.2.1 _ (by decide)⟩

/-- C8: for every OTP argument and every sequence of draws of `rand.Intn(35)`,
`nonce` returns a string of exactly 40 characters, one byte each, every one a
digit `0`-`9` or a lower-case letter `a`-`z`. -/
theorem nonce_forty_alphanumeric (otp : GoString) (draws : Nat → Fin 35) :
    (nonceRunes draws).length = 40 ∧
    nonce otp draws = nonceRunes draws ∧
    (nonce otp draws).length = 40 ∧
    ∀ b ∈ nonce otp draws, (48 ≤ b ∧ b ≤ 57) ∨ (97 ≤ b ∧ b ≤ 122) := by
  have hrange : ∀ r ∈ nonceRunes draws, (48 ≤ r ∧ r ≤ 57) ∨ (97 ≤ r ∧ r ≤ 122) := by
    intro r hr
    rw [nonceRunes_eq_map, List.mem_map] at hr
    obtain ⟨i, _, rfl⟩ := hr
    exact nonceRune_range (draws i)
  have hlen : (nonceRunes draws).length = 40 := by
    rw [nonceRunes_eq_map]
    simp
  have hascii : nonce otp draws = nonceRunes draws := by
    unfold nonce
    apply runesToString_ascii
    intro r hr
    have := hrange r hr
    omega
  refine ⟨hlen, hascii, ?_, ?_⟩
  · rw [hascii]
    exact hlen
  · rw [hascii]
    exact hrange

/-- C9: for every response body the parser binds each key `k` to the
CR/LF-trimmed text after the first `=` of the last line whose text before its
first `=` is `k`; a line with no `=` adds no entry; the value may contain `=`;
and `otp=XYZ\r\nnonce=ABC\r\nstatus=OK\r\n` parses to exactly the map of
`otp` to `XYZ`, `nonce` to `ABC` and `status` to `OK`. -/
theorem parseResponse_last_line_wins :
    (∀ body k : GoString, parseResponse body k = specBinding body k) ∧
    (∀ (m : GoMap) (line : GoString), '='.toNat ∉ line → parseSection m line = m) ∧
    (∀ (m : GoMap) (key value : GoString), '='.toNat ∉ key →
      parseSection m (key ++ '='.toNat :: value) = m.set key (Trim value (str "\n\r"))) ∧
    parseResponse (str "otp=XYZ\r\nnonce=ABC\r\nstatus=OK\r\n")
      = ((GoMap.empty.set (str "otp") (str "XYZ")).set (str "nonce") (str "ABC")).set
          (str "status") (str "OK") := by
  refine ⟨?_, ?_, ?_, rfl⟩
  · intro body k
    unfold parseResponse specBinding
    rw [foldl_parseSection]
    rfl
  · intro m line h
    unfold parseSection
    rw [SplitN2_of_not_mem _ _ h]
  · intro m key value h
    have hmem : '='.toNat ∈ key ++ '='.toNat :: value := by simp
    have hd : ∀ l : GoString, '='.toNat ∉ l →
        (l ++ '='.toNat :: value).dropWhile (fun b => b != '='.toNat) = '='.toNat :: value ∧
        (l ++ '='.toNat :: value).takeWhile (fun b => b != '='.toNat) = l := by
      intro l
      induction l with
      | nil => simp [List.dropWhile_cons, List.takeWhile_cons]
      | cons a l ih =>
        intro ha
        have h1 : ¬ a = '='.toNat := fun e => ha (by simp [e])
        have h2 : '='.toNat ∉ l := fun e => ha (List.mem_cons_of_mem _ e)
        have ih2 := ih h2
        constructor
        · rw [List.cons_append, List.dropWhile_cons, if_pos (by simpa using h1)]
          exact ih2.1
        · rw [List.cons_append, List.takeWhile_cons, if_pos (by simpa using h1)]
          rw [ih2.2]
    unfold parseSection
    rw [SplitN2_of_mem _ _ hmem, (hd key h).1, (hd key h).2]
    rfl

/-- Witness for C9: in `oddBody` a line without `=` binds nothing, the later
`status` line wins, and the value of `h` keeps its `=`. -/
theorem parseResponse_last_line_wins_witness :
    parseSection GoMap.empty (str "no separator here\r") = GoMap.empty ∧
    parseSection GoMap.empty (str "h=a=b\r") = GoMap.empty.set (str "h") (str "a=b") ∧
    parseResponse oddBody (str "status") = some (str "OK") ∧
    parseResponse oddBody (str "h") = some (str "a=b") ∧
    parseResponse oddBody (str "no separator here\r") = none :=
  ⟨parseResponse_last_line_wins.2.1 _ _ (by decide),
   parseResponse_last_line_wins.2.2.1 GoMap.empty (str "h") (str "a=b\r") (by decide),
   by decide, by decide, by decide⟩

/-- C10: for every body that was read, when the parsed status is
`REPLAYED_REQUEST` the handler offers nothing on the channel, and otherwise it
offers the parsed map with `_server` set to the server queried, whatever
`_server` line the body had; so a response `Validate` receives, and the result
it returns, never come from a `REPLAYED_REQUEST` response. -/
theorem api_drops_replayed_request (client : Client) (http : GoString → Option GoString)
    (server response otp n : GoString) :
    ((parseResponse response).index (str "status") = str "REPLAYED_REQUEST" →
      apiOffer server response = none ∧
      (http (requestURL client server otp n) = some response →
        api client http server otp n = none)) ∧
    ((parseResponse response).index (str "status") ≠ str "REPLAYED_REQUEST" →
      ∃ offer, apiOffer server response = some offer ∧
        (http (requestURL client server otp n) = some response →
          api client http server otp n = some offer) ∧
        offer (str "_server") = some server ∧
        ∀ k, k ≠ str "_server" → offer k = parseResponse response k) ∧
    (∀ (events : List Event) (r : GoMap),
      (race client http otp n events).received = some r →
        r.index (str "status") ≠ str "REPLAYED_REQUEST" ∧ Offered client http otp n r) ∧
    (∀ (draws : Nat → Fin 35) (events : List Event) (result : Option Error),
      Validate client http draws events otp = some result →
        ∃ r, r.index (str "status") ≠ str "REPLAYED_REQUEST" ∧
          Offered client http otp (nonce otp draws) r ∧
          result = reconcile otp (nonce otp draws) r) := by
  have hrace : ∀ (n : GoString) (events : List Event) (r : GoMap),
      (race client http otp n events).received = some r →
        r.index (str "status") ≠ str "REPLAYED_REQUEST" ∧ Offered client http otp n r := by
    intro n events r h
    have ho := race_received client http otp n events r h
    refine ⟨?_, ho⟩
    obtain ⟨sv, body, _, hs, rfl⟩ := ho
    rw [set_server_status]
    exact hs
  refine ⟨?_, ?_, hrace n, ?_⟩
  · intro h
    have h1 : apiOffer server response = none := by simp [apiOffer, h]
    refine ⟨h1, ?_⟩
    intro hh
    simp [api, hh, h1]
  · intro h
    have h1 : apiOffer server response = some ((parseResponse response).set (str "_server") server) := by
      simp [apiOffer, h]
    refine ⟨(parseResponse response).set (str "_server") server, h1, ?_, ?_, ?_⟩
    · intro hh
      simp [api, hh, h1]
    · simp [GoMap.set]
    · intro k hk
      simp [GoMap.set, hk]
  · intro draws events result h
    unfold Validate at h
    cases hr : (race client http otp (nonce otp draws) events).received with
    | none => simp [hr] at h
    | some r =>
      simp only [hr, Option.some.injEq] at h
      exact ⟨r, (hrace _ events r hr).1, (hrace _ events r hr).2, h.symm⟩

/-- Witness for C10: the handler offers nothing for `replayedBody`; for
`oddBody`, which has a `_server` line of its own, it offers a map tagged with
the server queried; and with the replaying server finishing first, `Validate`
receives the response of the other server. -/
theorem api_drops_replayed_request_witness :
    apiOffer (str "api.yubico.com") replayedBody = none ∧
    (∃ offer, apiOffer (str "api2.yubico.com") oddBody = some offer ∧
      offer (str "_server") = some (str "api2.yubico.com")) ∧
    (race twoServers replayThenOk testOTP (nonce testOTP zeroDraws)
        [Event.receive, Event.finish (str "api.yubico.com"),
          Event.finish (str "api2.yubico.com")]).received
      = some ((parseResponse okBody).set (str "_server") (str "api2.yubico.com")) ∧
    ((parseResponse okBody).set (str "_server") (str "api2.yubico.com")).index (str "status")
      ≠ str "REPLAYED_REQUEST" ∧
    Validate twoServers replayThenOk zeroDraws
        [Event.receive, Event.finish (str "api.yubico.com"),
          Event.finish (str "api2.yubico.com")] testOTP = some none :=
  have h := api_drops_replayed_request twoServers replayThenOk (str "api.yubico.com") replayedBody
    testOTP (nonce testOTP zeroDraws)
  have h2 := api_drops_replayed_request twoServers replayThenOk (str "api2.yubico.com") oddBody
    testOTP (nonce testOTP zeroDraws)
  ⟨(h.1 (by decide)).1,
   (h2.2.1 (by decide)).imp (fun _ ho => ⟨ho.1, ho.2.2.1⟩),
   rfl,
   (h.2.2.1 [Event.receive, Event.finish (str "api.yubico.com"),
      Event.finish (str "api2.yubico.com")] _ rfl).1,
   by decide⟩

/-- C11: the response `Validate` receives is the first offer among the handlers
that finish after it has reached the receive of line 111; the offers of
handlers that finish before that are dropped by the `default` branch.  So with
one server whose valid response arrives early `Validate` stays blocked, and
with two servers an early accepting response loses to a later rejecting one;
with the receive first, the three-server example of the claim succeeds. -/
theorem Validate_drops_early_response :
    (∀ (client : Client) (http : GoString → Option GoString) (otp n : GoString)
        (early later : List GoString),
      (race client http otp n
          (early.map Event.finish ++ Event.receive :: later.map Event.finish)).received
        = specFirstEligible client http otp n later) ∧
    Validate oneServer okTransport zeroDraws
      [Event.finish (str "api.yubico.com"), Event.receive] testOTP = none ∧
    specFirstEligible twoServers okThenBad testOTP (nonce testOTP zeroDraws)
      [str "api.yubico.com", str "api2.yubico.com"] = some okResponse ∧
    reconcile testOTP (nonce testOTP zeroDraws) okResponse = none ∧
    Validate twoServers okThenBad zeroDraws
      [Event.finish (str "api.yubico.com"), Event.receive, Event.finish (str "api2.yubico.com")]
      testOTP = some (some Error.ErrStatus) ∧
    Validate threeServers timeoutReplayOk zeroDraws
      [Event.receive, Event.finish (str "a.example"), Event.finish (str "b.example"),
        Event.finish (str "c.example")] testOTP = some none := by
  refine ⟨?_, by decide, rfl, by decide, by decide, by decide⟩
  intro client http otp n early later
  unfold race
  rw [List.foldl_append, foldl_raceStep_early, List.foldl_cons]
  exact foldl_raceStep_receiving client http otp n later

/-- C12: for every client ID and servers argument, `New` returns a client whose
`ClientID` is the given one and whose `Servers` is the given list, same
elements in the same order, when a list is supplied, and the five hosts
`api.yubico.com`, `api2.yubico.com`, ..., `api5.yubico.com` when the argument
is nil. -/
theorem New_fields (clientID : GoString) (servers : Option (List GoString))
    (l : List GoString) :
    (New clientID servers).ClientID = clientID ∧
    (New clientID (some l)).Servers = l ∧
    (New clientID none).Servers
      = [str "api.yubico.com", str "api2.yubico.com", str "api3.yubico.com",
          str "api4.yubico.com", str "api5.yubico.com"] ∧
    (New [] (some [str "api.yubico.com", str "api3.yubico.com", str "api5.yubico.com"])).Servers
      = [str "api.yubico.com", str "api3.yubico.com", str "api5.yubico.com"] := by
  refine ⟨?_, rfl, rfl, rfl⟩
  cases servers <;> rfl

/-- C13, as stated, fails: two responses with matching otp and nonce that differ
only in their status, `BAD_OTP` and `NO_SUCH_CLIENT`, give one and the same
error, whose text holds no status. -/
theorem Validate_status_not_carried_counterexample :
    (responseWithStatus (str "BAD_OTP")).index (str "status")
      ≠ (responseWithStatus (str "NO_SUCH_CLIENT")).index (str "status") ∧
    reconcile testOTP (nonce testOTP zeroDraws) (responseWithStatus (str "BAD_OTP"))
      = reconcile testOTP (nonce testOTP zeroDraws) (responseWithStatus (str "NO_SUCH_CLIENT")) ∧
    (reconcile testOTP (nonce testOTP zeroDraws) (responseWithStatus (str "BAD_OTP"))).map
      Error.message = some (str "validate: non-OK status received") := by
  decide

/-- C13, amended: when the response has matching otp and nonce but a status
other than `OK`, the checks give the fixed value `ErrStatus`, with the text
`validate: non-OK status received`, whatever the status is, and that is what
`Validate` returns for a response it received; the error does not carry the
status. -/
theorem Validate_status_fixed_error (client : Client) (http : GoString → Option GoString)
    (draws : Nat → Fin 35) (events : List Event) (o n : GoString) (r : GoMap)
    (hotp : r.index (str "otp") = o) (hnonce : r.index (str "nonce") = n)
    (hstatus : r.index (str "status") ≠ str "OK") :
    reconcile o n r = some Error.ErrStatus ∧
    (reconcile o n r).map Error.message = some (str "validate: non-OK status received") ∧
    (n = nonce o draws → (race client http o n events).received = some r →
      Validate client http draws events o = some (some Error.ErrStatus)) := by
  have h : reconcile o n r = some Error.ErrStatus := by
    simp [reconcile, hotp, hnonce, hstatus]
  refine ⟨h, by rw [h]; rfl, ?_⟩
  intro hn hr
  rw [hn] at h hr
  unfold Validate
  simp only [hr, h]

/-- Witness for C13: the second server answers `BAD_OTP` while the first one
replays, and `Validate` returns `ErrStatus`. -/
theorem Validate_status_fixed_error_witness :
    reconcile testOTP (nonce testOTP zeroDraws)
      ((parseResponse badBody).set (str "_server") (str "api2.yubico.com"))
      = some Error.ErrStatus ∧
    Validate twoServers okThenBad zeroDraws
      [Event.receive, Event.finish (str "api2.yubico.com")] testOTP
      = some (some Error.ErrStatus) :=
  have h := Validate_status_fixed_error twoServers okThenBad zeroDraws
    [Event.receive, Event.finish (str "api2.yubico.com")] testOTP (nonce testOTP zeroDraws)
    ((parseResponse badBody).set (str "_server") (str "api2.yubico.com"))
    (by decide) (by decide) (by decide)
  ⟨h.1, h.2.2 rfl rfl⟩

/-- C14: no draw of `rand.Intn(35)` gives `z`: the rune `z` is the one of the
draw 35, as the comment of line 207 computes, and the draws stop at 34.  Each
position takes each of the 35 symbols `0`-`9`, `a`-`y` for some draw, and
distinct draws give distinct symbols. -/
theorem nonce_never_z (otp : GoString) (draws : Nat → Fin 35) :
    'z'.toNat ∉ nonce otp draws ∧
    nonceRune 35 = 'z'.toNat ∧
    (∀ c : Fin 35, nonceRune c.val ≤ 'y'.toNat) ∧
    (∀ c c' : Fin 35, nonceRune c.val = nonceRune c'.val → c = c') ∧
    (∀ (i : Nat) (c : Fin 35), i < 40 →
      (nonce otp (fun j => if j = i then c else draws j))[i]? = some (nonceRune c.val)) := by
  refine ⟨?_, by decide, nonceRune_le_y, ?_, ?_⟩
  · intro hz
    rw [nonce_eq_map, List.mem_map] at hz
    obtain ⟨i, _, hi⟩ := hz
    have := nonceRune_le_y (draws i)
    have h122 : 'z'.toNat = 122 := by decide
    omega
  · intro c c' h
    have hc := c.isLt
    have hc' := c'.isLt
    apply Fin.ext
    unfold nonceRune at h
    split at h <;> split at h <;> omega
  · intro i c hi
    rw [nonce_eq_map, List.getElem?_map, List.getElem?_range hi]
    simp

/-- C15, as stated, fails: for the line `k=\rv\r` the value stored is `v`; the
text after the `=` with only its trailing carriage return removed is `\rv`. -/
theorem parseSection_trims_leading_counterexample :
    parseSection GoMap.empty (str "k=\rv\r") (str "k") = some (str "v") ∧
    specTrimTail (str "\rv\r") = str "\rv" ∧
    parseSection GoMap.empty (str "k=\rv\r") (str "k") ≠ some (specTrimTail (str "\rv\r")) := by
  decide

/-- C15, amended: for every response line `key=value` the value stored is the
text after the first `=` with its leading and its trailing carriage returns and
newlines removed; what lies between is preserved, and the stored value neither
starts nor ends with one of the two. -/
theorem parseSection_trims_both_ends (m : GoMap) (key value : GoString)
    (h : '='.toNat ∉ key) :
    ∃ stored pre post,
      parseSection m (key ++ '='.toNat :: value) = m.set key stored ∧
      value = pre ++ stored ++ post ∧
      (∀ b ∈ pre, b = '\r'.toNat ∨ b = '\n'.toNat) ∧
      (∀ b ∈ post, b = '\r'.toNat ∨ b = '\n'.toNat) ∧
      (∀ b, stored.head? = some b → b ≠ '\r'.toNat ∧ b ≠ '\n'.toNat) ∧
      (∀ b, stored.getLast? = some b → b ≠ '\r'.toNat ∧ b ≠ '\n'.toNat) := by
  obtain ⟨pre, post, hv, hpre, hpost, hhead, hlast⟩ := Trim_decompose value (str "\n\r")
  have hcut : ∀ b, b ∈ str "\n\r" ↔ (b = '\r'.toNat ∨ b = '\n'.toNat) := by
    intro b
    have : str "\n\r" = [ '\n'.toNat, '\r'.toNat] := by decide
    rw [this]
    simp [or_comm]
  refine ⟨Trim value (str "\n\r"), pre, post, parseSection_key_value m key value h, hv, ?_, ?_,
    ?_, ?_⟩
  · intro b hb
    exact (hcut b).1 (hpre b hb)
  · intro b hb
    exact (hcut b).1 (hpost b hb)
  · intro b hb
    have := hhead b hb
    rw [hcut] at this
    exact not_or.1 this
  · intro b hb
    have := hlast b hb
    rw [hcut] at this
    exact not_or.1 this

/-- Witness for C15: the line `k=\rv\r`. -/
theorem parseSection_trims_both_ends_witness :
    ∃ stored pre post,
      parseSection GoMap.empty (str "k" ++ '='.toNat :: str "\rv\r") = GoMap.empty.set (str "k") stored ∧
      str "\rv\r" = pre ++ stored ++ post ∧
      (∀ b ∈ pre, b = '\r'.toNat ∨ b = '\n'.toNat) ∧
      (∀ b ∈ post, b = '\r'.toNat ∨ b = '\n'.toNat) ∧
      (∀ b, stored.head? = some b → b ≠ '\r'.toNat ∧ b ≠ '\n'.toNat) ∧
      (∀ b, stored.getLast? = some b → b ≠ '\r'.toNat ∧ b ≠ '\n'.toNat) :=
  parseSection_trims_both_ends GoMap.empty (str "k") (str "\rv\r") (by decide)

/-- C16, as stated, fails: for an empty list that is not nil, `New` returns a
client whose server list is empty. -/
theorem New_empty_servers_counterexample :
    (New [] (some [])).Servers = [] ∧ (New (str "1") (some [])).Servers.length = 0 := by
  decide

/-- C16, amended: for every client ID, the server list of the client `New`
returns is non-empty when the servers argument is nil or a non-empty list; for
an empty list that is not nil it is that empty list. -/
theorem New_servers_nonempty (clientID : GoString) (servers : Option (List GoString))
    (h : servers ≠ some []) :
    (New clientID servers).Servers ≠ [] ∧ (New clientID (some [])).Servers = [] := by
  refine ⟨?_, rfl⟩
  cases servers with
  | none =>
    show defaultServers ≠ []
    decide
  | some l =>
    show l ≠ []
    intro hl
    exact h (by rw [hl])

/-- Witness for C16: the nil argument and the list of the repository's test. -/
theorem New_servers_nonempty_witness :
    (New [] none).Servers ≠ [] ∧
    (New [] (some [str "api.yubico.com", str "api3.yubico.com", str "api5.yubico.com"])).Servers
      ≠ [] :=
  ⟨(New_servers_nonempty [] none (by decide)).1,
   (New_servers_nonempty [] (some [str "api.yubico.com", str "api3.yubico.com",
      str "api5.yubico.com"]) (by decide)).1⟩

/-- C17: no string at all is translated by `dvorakToQwerty` to a string that
holds the upper-case `E`, so a canonical OTP with an `E` has no alternate-layout
original: sent through the inverse table and back, thirty-two `E` come out as
thirty-two `e`.  For every canonical string without `E` there is exactly one
alternate-layout string that is translated to it. -/
theorem dvorakToQwerty_never_yields_E :
    (∀ d c : GoString, 'E'.toNat ∈ c → dvorakToQwerty d ≠ c) ∧
    (∀ b ∈ str "EEEEEEEEEEEEEEEEEEEEEEEEEEEEEEEE", specCanonical b = true) ∧
    dvorakToQwerty ((str "EEEEEEEEEEEEEEEEEEEEEEEEEEEEEEEE").map specInverse)
      = str "eeeeeeeeeeeeeeeeeeeeeeeeeeeeeeee" ∧
    (∀ c : GoString, (∀ b ∈ c, specCanonical b = true) → 'E'.toNat ∉ c →
      ∃! d : GoString, (∀ b ∈ d, specAlternate b = true) ∧ dvorakToQwerty d = c) := by
  refine ⟨?_, by decide, by decide, ?_⟩
  · intro d c hE hdc
    rw [← hdc] at hE
    simp only [dvorakToQwerty, Replace, List.mem_map] at hE
    obtain ⟨b, _, hb⟩ := hE
    exact replaceByte_ne_E b hb
  · intro c hc hE
    have hinv : ∀ b ∈ c, specAlternate (specInverse b) = true ∧
        replaceByte dvorakToQwertyOldNew (specInverse b) = b := by
      intro b hb
      exact replaceByte_specInverse b (hc b hb) (fun e => hE (e ▸ hb))
    have halt : ∀ b ∈ c.map specInverse, specAlternate b = true := by
      intro b hb
      obtain ⟨a, ha, rfl⟩ := List.mem_map.1 hb
      exact (hinv a ha).1
    have hback : dvorakToQwerty (c.map specInverse) = c := by
      simp only [dvorakToQwerty, Replace, List.map_map]
      conv_rhs => rw [← List.map_id c]
      apply List.map_congr_left
      intro b hb
      exact (hinv b hb).2
    refine ⟨c.map specInverse, ⟨halt, hback⟩, ?_⟩
    intro d' hd'
    exact dvorakToQwerty_injective d' (c.map specInverse) hd'.1 halt (hd'.2.trans hback.symm)

/-- C18: for every server, client ID, OTP and nonce the handler requests
exactly `https://` server `/wsapi/2.0/verify?id=` clientID `&otp=` otp
`&nonce=` nonce `&sl=secure`; the handlers of `Validate` are given the OTP of
the caller as it is and the nonce that the received response is checked
against, and read the transport at those URLs only. -/
theorem api_requests_verify_url (client : Client) (http : GoString → Option GoString)
    (server otp n : GoString) :
    requestURL client server otp n
      = str "https://" ++ server ++ str "/wsapi/2.0/verify?id=" ++ client.ClientID
          ++ str "&otp=" ++ otp ++ str "&nonce=" ++ n ++ str "&sl=secure" ∧
    api client http server otp n
      = (match http (str "https://" ++ server ++ str "/wsapi/2.0/verify?id=" ++ client.ClientID
            ++ str "&otp=" ++ otp ++ str "&nonce=" ++ n ++ str "&sl=secure") with
         | none => none
         | some response => apiOffer server response) ∧
    (∀ (draws : Nat → Fin 35) (events : List Event) (r : GoMap),
      (race client http otp (nonce otp draws) events).received = some r →
        Validate client http draws events otp = some (reconcile otp (nonce otp draws) r) ∧
        ∃ sv response,
          http (str "https://" ++ sv ++ str "/wsapi/2.0/verify?id=" ++ client.ClientID
            ++ str "&otp=" ++ otp ++ str "&nonce=" ++ nonce otp draws ++ str "&sl=secure")
            = some response ∧
          r = (parseResponse response).set (str "_server") sv) ∧
    (∀ (draws : Nat → Fin 35) (events : List Event) (http' : GoString → Option GoString),
      (∀ sv, http (str "https://" ++ sv ++ str "/wsapi/2.0/verify?id=" ++ client.ClientID
            ++ str "&otp=" ++ otp ++ str "&nonce=" ++ nonce otp draws ++ str "&sl=secure")
          = http' (str "https://" ++ sv ++ str "/wsapi/2.0/verify?id=" ++ client.ClientID
            ++ str "&otp=" ++ otp ++ str "&nonce=" ++ nonce otp draws ++ str "&sl=secure")) →
        Validate client http draws events otp = Validate client http' draws events otp) := by
  refine ⟨rfl, rfl, ?_, ?_⟩
  · intro draws events r hr
    refine ⟨by simp only [Validate, hr], ?_⟩
    obtain ⟨sv, response, hh, _, hrr⟩ := race_received client http otp _ events r hr
    exact ⟨sv, response, hh, hrr⟩
  · intro draws events http' h
    have hrace := race_congr client http http' otp (nonce otp draws) events h
    simp only [Validate, hrace]

/-- Witness for C18: a transport that answers at the one URL of that form only;
`Validate` succeeds, and for the OTP as typed on the alternate layout the URL
holds it untranslated. -/
theorem api_requests_verify_url_witness :
    (race oneServer onlyVerifyURL testOTP (nonce testOTP zeroDraws)
        [Event.receive, Event.finish (str "api.yubico.com")]).received = some okResponse ∧
    Validate oneServer onlyVerifyURL zeroDraws
        [Event.receive, Event.finish (str "api.yubico.com")] testOTP
      = some (reconcile testOTP (nonce testOTP zeroDraws) okResponse) ∧
    requestURL oneServer (str "api.yubico.com") testOTPAlternate (nonce testOTP zeroDraws)
      = str "https://api.yubico.com/wsapi/2.0/verify?id=1&otp=jjjjjjcenukkkg.uteijcnphjuuuchciedpxkbiui.nx&nonce=0000000000000000000000000000000000000000&sl=secure" :=
  ⟨rfl,
   ((api_requests_verify_url oneServer onlyVerifyURL (str "api.yubico.com") testOTP
      (nonce testOTP zeroDraws)).2.2.1 zeroDraws
      [Event.receive, Event.finish (str "api.yubico.com")] okResponse rfl).1,
   by decide⟩

/-- C19, as stated, fails: forty `c` is a canonical string of length 40, and the
string `IsValidOTP` tests against the canonical pattern is forty `i`. -/
theorem convertLayout_remaps_canonical_counterexample :
    (str "cccccccccccccccccccccccccccccccccccccccc").length = 40 ∧
    (∀ b ∈ str "cccccccccccccccccccccccccccccccccccccccc", specCanonical b = true) ∧
    convertLayout (str "cccccccccccccccccccccccccccccccccccccccc")
      = str "iiiiiiiiiiiiiiiiiiiiiiiiiiiiiiiiiiiiiiii" ∧
    convertLayout (str "cccccccccccccccccccccccccccccccccccccccc")
      ≠ str "cccccccccccccccccccccccccccccccccccccccc" := by
  decide

/-- C19, amended: for every string of length 32 to 48 over the canonical
alphabet, `IsValidOTP` returns `nil`; the string it tests is the input itself
when the input has a character outside the alternate-layout alphabet, and is
the image of the input under the table, which differs from the input, when
every character of the input is also an alternate-layout character. -/
theorem convertLayout_canonical (otp : GoString) (hlo : 32 ≤ otp.length)
    (hhi : otp.length ≤ 48) (h : ∀ b ∈ otp, specCanonical b = true) :
    IsValidOTP otp = none ∧
    ((∃ b ∈ otp, specAlternate b = false) → convertLayout otp = otp) ∧
    ((∀ b ∈ otp, specAlternate b = true) →
      convertLayout otp = otp.map specTranslate ∧ convertLayout otp ≠ otp) := by
  have hlen : ¬ (otp.length < 32 ∨ otp.length > 48) := by omega
  refine ⟨?_, ?_, ?_⟩
  · have hq : matchQwerty (convertLayout otp) = true := by
      unfold convertLayout
      by_cases hd : matchDvorak otp = true
      · rw [if_pos hd, matchQwerty_iff, dvorakToQwerty_length]
        exact ⟨hlo, hhi, dvorakToQwerty_canonical otp ((matchDvorak_iff otp).1 hd).2.2⟩
      · rw [if_neg hd]
        exact (matchQwerty_iff otp).2 ⟨hlo, hhi, h⟩
    simp [IsValidOTP, hlen, hq]
  · intro hex
    obtain ⟨b, hb, hbf⟩ := hex
    have hd : ¬ matchDvorak otp = true := by
      intro hd
      have := ((matchDvorak_iff otp).1 hd).2.2 b hb
      rw [hbf] at this
      exact Bool.noConfusion this
    simp [convertLayout, hd]
  · intro hall
    have hd : matchDvorak otp = true := (matchDvorak_iff otp).2 ⟨hlo, hhi, hall⟩
    have hc : convertLayout otp = otp.map specTranslate := by
      simp only [convertLayout, hd, if_true]
      exact dvorakToQwerty_eq_map otp hall
    refine ⟨hc, ?_⟩
    rw [hc]
    intro heq
    cases otp with
    | nil => simp at hlo
    | cons a t =>
      simp only [List.map_cons, List.cons.injEq] at heq
      exact specTranslate_ne_self a (hall a (List.mem_cons_self _ _)) heq.1

/-- Witness for C19: the test OTP has the character `l`, which is not of the
alternate layout, and is tested as it is; forty `c` is tested as forty `i`. -/
theorem convertLayout_canonical_witness :
    convertLayout testOTP = testOTP ∧
    convertLayout (str "cccccccccccccccccccccccccccccccccccccccc")
      ≠ str "cccccccccccccccccccccccccccccccccccccccc" :=
  ⟨(convertLayout_canonical testOTP (by decide) (by decide) (by decide)).2.1
      ⟨'l'.toNat, by decide, by decide⟩,
   ((convertLayout_canonical (str "cccccccccccccccccccccccccccccccccccccccc") (by decide)
      (by decide) (by decide)).2.2 (by decide)).2⟩

/-- C20: for every string `s`, so for every string over the alternate-layout
alphabet, of any length, the identity of the translated string is the
translation of the identity of `s`; the translation keeps the length and, over
the alternate-layout alphabet, is the character-by-character image under the
table. -/
theorem GetIdentity_dvorakToQwerty (s : GoString) :
    GetIdentity (dvorakToQwerty s) = (GetIdentity s).map dvorakToQwerty ∧
    (dvorakToQwerty s).length = s.length ∧
    ((∀ b ∈ s, specAlternate b = true) →
      GetIdentity (s.map specTranslate) = (GetIdentity s).map (List.map specTranslate)) := by
  have hgen : ∀ f : Nat → Nat, GetIdentity (s.map f) = (GetIdentity s).map (List.map f) := by
    intro f
    rw [GetIdentity_eq, GetIdentity_eq, List.length_map]
    by_cases h : s.length < 33
    · simp [h]
    · simp [h, List.map_take]
  refine ⟨hgen _, dvorakToQwerty_length s, ?_⟩
  intro _
  exact hgen specTranslate

/-- Witness for C20: the test OTP as typed on the alternate layout; its
identity `jjjjjjcenukk` is translated to `ccccccidlfvv`. -/
theorem GetIdentity_dvorakToQwerty_witness :
    dvorakToQwerty testOTPAlternate = testOTP ∧
    GetIdentity testOTPAlternate = some (str "jjjjjjcenukk") ∧
    GetIdentity (dvorakToQwerty testOTPAlternate) = some (dvorakToQwerty (str "jjjjjjcenukk")) ∧
    GetIdentity (testOTPAlternate.map specTranslate)
      = (GetIdentity testOTPAlternate).map (List.map specTranslate) :=
  ⟨by decide, by decide,
   (GetIdentity_dvorakToQwerty testOTPAlternate).1.trans (by decide),
   (GetIdentity_dvorakToQwerty testOTPAlternate).2.2 (by decide)⟩

end Yubikey
